import Mathlib

/-!
Verification of the comprehension proc-macro crate (comp_macro).

The crate translates a Python-style list comprehension
  mapping 'for' pattern 'in' sequence ('if' condition)*
into the host-language iterator expression
  core iter IntoIterator into_iter(sequence)
    .flat_map(move |pattern| (true && c1 && ... && cn).then(|| mapping))

The frontend (impl Parse for Comp / Mapping / ForIfClause / Pattern /
Condition, and parse_zero_or_more) is embedded as total functions over a
cursor into a token list; the external sublanguage parsers delegated to the
host grammar are modelled from the spec and marked as such.  The backend
(impl ToTokens for Comp) is embedded as a tree-to-tree transform to a
Rendered node plus a serializer to output tokens, together with a traced
evaluation semantics used to state the short-circuit and filter/map claims.
-/

/-- Delimiter of a nested token group (proc-macro token trees). -/
inductive Delim : Type where
  | paren
  | bracket
  | brace

/-- A lexical token of the input/output streams: the three structural
keywords the grammar looks at, identifiers, integer literals, punctuation,
and delimiter-balanced nested groups. -/
inductive Tok : Type where
  | kwFor
  | kwIn
  | kwIf
  | ident (s : String)
  | lit (n : Nat)
  | op (s : String)
  | group (d : Delim) (inner : List Tok)

/-- Does this token begin the keyword `for`? -/
def Tok.isKwFor : Tok → Bool
  | .kwFor => true
  | _ => false

/-- Does this token begin the keyword `in`? -/
def Tok.isKwIn : Tok → Bool
  | .kwIn => true
  | _ => false

/-- Does this token begin the keyword `if`? -/
def Tok.isKwIf : Tok → Bool
  | .kwIf => true
  | _ => false

/-- Is this token one of the three structural keywords of the grammar? -/
def Tok.isKw : Tok → Bool
  | .kwFor => true
  | .kwIn => true
  | .kwIf => true
  | _ => false

/-- An opaque expression of the external sublanguage: the core never
inspects it, it only records the consumed prefix of tokens and re-embeds
it on output. -/
abbrev Expr : Type := List Tok

/-- The single error kind of the frontend: which concrete token or
construct was expected, and the position (index of the next unconsumed
top-level token) where the mismatch occurred. -/
structure SynError : Type where
  expected : String
  pos : Nat

/-- Parser cursor: position reached so far plus the remaining tokens. -/
structure Cursor : Type where
  pos : Nat
  toks : List Tok

/-- Result of one parse routine: the outcome paired with the stream state
after the attempt (the model of syn ParseStream routines, whose interior
cursor is mutated in place).  syn does not rewind on error: the cursor a
failed composite parse returns stays past whatever tokens its successful
sub-parses had already consumed. -/
abbrev ParseResult (α : Type) : Type := Except SynError α × Cursor

/-- Model of input.parse for a single keyword token (Token![for] etc.):
consume one token when the test matches, otherwise an error naming the
expected keyword at the current position.  A single-token parse is atomic:
on failure it consumes nothing. -/
def parseKeyword (test : Tok → Bool) (name : String) (c : Cursor) :
    ParseResult Unit :=
  match c.toks with
  | t :: rest =>
    if test t then (.ok (), ⟨c.pos + 1, rest⟩) else (.error ⟨name, c.pos⟩, c)
  | [] => (.error ⟨name, c.pos⟩, c)

/-- Split a token list into the maximal prefix free of top-level structural
keywords, and the remainder.  Keywords inside nested groups do not stop the
scan because a group is a single token tree. -/
def splitExprToks : List Tok → List Tok × List Tok
  | [] => ([], [])
  | t :: rest =>
    if t.isKw then ([], t :: rest)
    else (t :: (splitExprToks rest).1, (splitExprToks rest).2)

/-- Modelled from the spec: the external general expression parser of the
host sublanguage (syn Expr), which the crate delegates to but does not
implement.  Per the spec it consumes a balanced prefix of the token stream
up to the next top-level structural keyword, and fails with an error at the
current position when no expression tokens are present, consuming nothing
in that failure case. -/
def parseExprSyn (c : Cursor) : ParseResult Expr :=
  if (splitExprToks c.toks).1.isEmpty then (.error ⟨"expression", c.pos⟩, c)
  else
    (.ok (splitExprToks c.toks).1,
      ⟨c.pos + (splitExprToks c.toks).1.length, (splitExprToks c.toks).2⟩)

/-- A parsed binding pattern: a single identifier or a parenthesized
subpattern, kept opaque apart from its tokens. -/
inductive Pat : Type where
  | ident (s : String)
  | tuple (inner : List Tok)

/-- Modelled from the spec: the external single-binding-pattern parser of
the host sublanguage (syn Pat parse_single), which the crate delegates to
but does not implement.  Per the spec it parses exactly one
single-identifier-or-subpattern token tree; in particular it does not
consume a top-level comma after the first identifier. -/
def parsePatSingle (c : Cursor) : ParseResult Pat :=
  match c.toks with
  | Tok.ident s :: rest => (.ok (.ident s), ⟨c.pos + 1, rest⟩)
  | Tok.group Delim.paren inner :: rest =>
    (.ok (.tuple inner), ⟨c.pos + 1, rest⟩)
  | _ => (.error ⟨"pattern", c.pos⟩, c)

/-- mapping: expression (struct Mapping). -/
structure Mapping : Type where
  expr : Expr

/-- impl Parse for Mapping: parse one expression and wrap it. -/
def mappingParse (c : Cursor) : ParseResult Mapping :=
  match parseExprSyn c with
  | (.ok e, c') => (.ok ⟨e⟩, c')
  | (.error err, c') => (.error err, c')

/-- condition: the expression guarded by one `if` (struct Condition). -/
structure Condition : Type where
  expr : Expr

/-- impl Parse for Condition: require the `if` keyword, then parse the
guard expression.  Because the stream does not rewind on error, a failed
attempt that had already consumed the `if` (guard-expression failure)
leaves the stream past the `if`: the returned cursor is wherever the
failing sub-parse stopped, not the attempt's start. -/
def conditionParse (c : Cursor) : ParseResult Condition :=
  match parseKeyword Tok.isKwIf "if" c with
  | (.ok _u, c1) =>
    match parseExprSyn c1 with
    | (.ok e, c2) => (.ok ⟨e⟩, c2)
    | (.error err, c2) => (.error err, c2)
  | (.error err, c1) => (.error err, c1)

/-- Fuel-indexed body of parse_zero_or_more: repeatedly attempt the item
parser; on success append and continue from the advanced cursor, on the
first failure stop and return the accumulated items.  The stream is left
wherever the failed attempt stopped: the source's while-let loop performs
no checkpoint/rollback, so tokens the failed attempt consumed stay
consumed. -/
def parseZeroOrMoreAux {γ : Type} (p : Cursor → ParseResult γ) :
    Nat → Cursor → List γ × Cursor
  | 0, c => ([], c)
  | fuel + 1, c =>
    match p c with
    | (.ok item, c') =>
      ((item :: (parseZeroOrMoreAux p fuel c').1),
        (parseZeroOrMoreAux p fuel c').2)
    | (.error _e, c') => ([], c')

/-- fn parse_zero_or_more: the while-let loop of the source, supplied with
enough fuel for any item parser that consumes at least one token per
success (proved below for the Condition parser). -/
def parse_zero_or_more {γ : Type} (p : Cursor → ParseResult γ)
    (c : Cursor) : List γ × Cursor :=
  parseZeroOrMoreAux p (c.toks.length + 1) c

/-- for_if_clause: 'for' pattern 'in' sequence ('if' expression)*. -/
structure ForIfClause : Type where
  pattern : Pat
  sequence : Expr
  conditions : List Condition

/-- impl Parse for ForIfClause: `for`, then a pattern, then `in`, then the
sequence expression, then zero or more conditions.  Each required step
propagates its error immediately. -/
def forIfClauseParse (c : Cursor) : ParseResult ForIfClause :=
  match parseKeyword Tok.isKwFor "for" c with
  | (.error e, c1) => (.error e, c1)
  | (.ok _u, c1) =>
    match parsePatSingle c1 with
    | (.error e, c2) => (.error e, c2)
    | (.ok pat, c2) =>
      match parseKeyword Tok.isKwIn "in" c2 with
      | (.error e, c3) => (.error e, c3)
      | (.ok _v, c3) =>
        match parseExprSyn c3 with
        | (.error e, c4) => (.error e, c4)
        | (.ok seqE, c4) =>
          ((.ok ⟨pat, seqE, (parse_zero_or_more conditionParse c4).1⟩),
            (parse_zero_or_more conditionParse c4).2)

/-- comp: mapping for_if_clause (struct Comp, the AST root). -/
structure Comp : Type where
  mapping : Mapping
  for_if_clause : ForIfClause

/-- impl Parse for Comp: the mapping expression followed by the single
generator clause. -/
def compParse (c : Cursor) : ParseResult Comp :=
  match mappingParse c with
  | (.error e, c1) => (.error e, c1)
  | (.ok m, c1) =>
    match forIfClauseParse c1 with
    | (.error e, c2) => (.error e, c2)
    | (.ok fc, c2) => (.ok ⟨m, fc⟩, c2)

/-- The guard expression generated by the backend template
(true (&& condition)*): a left-associated chain starting from the constant
true. -/
inductive GuardExpr : Type where
  | base
  | and (g : GuardExpr) (cond : Expr)

/-- Build the generated guard from the parsed conditions, in source order,
left-associated onto the constant-true base case. -/
def guardOf (conds : List Condition) : GuardExpr :=
  conds.foldl (fun g cnd => GuardExpr.and g cnd.expr) GuardExpr.base

/-- The generated target expression as a tree: the fixed template
into_iter(seq).flat_map(move |pat| guard.then(|| mapping)) with its four
holes. -/
structure Rendered : Type where
  seq : Expr
  pat : Pat
  guard : GuardExpr
  mapping : Expr

/-- impl ToTokens for Comp, as a tree-to-tree transform: fill the four
holes of the fixed template from the AST.  Total on Comp: every branch
produces a Rendered value. -/
def renderComp (c : Comp) : Rendered :=
  { seq := c.for_if_clause.sequence
    pat := c.for_if_clause.pattern
    guard := guardOf c.for_if_clause.conditions
    mapping := c.mapping.expr }

/-- Serialize the generated guard back to tokens: `true` for the base
case, then `&&` followed by each condition's raw tokens. -/
def guardToks : GuardExpr → List Tok
  | .base => [Tok.ident "true"]
  | .and g e => guardToks g ++ [Tok.op "&&"] ++ e

/-- Serialize a pattern back to tokens (impl ToTokens for Pattern). -/
def patToks : Pat → List Tok
  | .ident s => [Tok.ident s]
  | .tuple inner => [Tok.group Delim.paren inner]

/-- Serialize the rendered tree to the output token stream of the quote
template in impl ToTokens for Comp. -/
def renderedToks (r : Rendered) : List Tok :=
  [Tok.ident "core", Tok.op "::", Tok.ident "iter", Tok.op "::",
    Tok.ident "IntoIterator", Tok.op "::", Tok.ident "into_iter",
    Tok.group Delim.paren r.seq, Tok.op ".", Tok.ident "flat_map",
    Tok.group Delim.paren
      ([Tok.ident "move", Tok.op "|"] ++ patToks r.pat ++ [Tok.op "|",
        Tok.group Delim.brace
          [Tok.group Delim.paren (guardToks r.guard), Tok.op ".",
            Tok.ident "then",
            Tok.group Delim.paren [Tok.op "||", Tok.group Delim.brace r.mapping]]])]

/-- fn to_tokens, as called on a token buffer: tokens.extend(quote { ... })
appends the serialized rendering of the AST to the buffer. -/
def compToTokens (c : Comp) (buf : List Tok) : List Tok :=
  buf ++ renderedToks (renderComp c)

/-- The public entry point fn comp (src lines 69-73).  Modelled from the
spec: the external parsing entry it calls (parse_macro_input) parses the
whole stream with the Comp parser and, per its documented contract,
rejects the invocation when any tokens remain unconsumed; on success the
quote template output is returned to the compiler. -/
def comp (input : List Tok) : Except SynError Rendered :=
  match compParse ⟨0, input⟩ with
  | (.error e, _c') => .error e
  | (.ok cm, c') =>
    match c'.toks with
    | [] => .ok (renderComp cm)
    | _ :: _ => .error ⟨"unexpected token", c'.pos⟩

/-- Traced evaluation of the generated guard under a denotation of the
opaque condition expressions: result value of the chain of Rust
short-circuiting `&&`, together with the number of condition expressions
actually evaluated (left operand first, right operand skipped when the
left is already false). -/
def GuardExpr.evalTrace {α : Type} (condDen : Expr → α → Bool) (x : α) :
    GuardExpr → Bool × Nat
  | .base => (true, 0)
  | .and g e =>
    if (GuardExpr.evalTrace condDen x g).1 then
      (if condDen e x then (true, (GuardExpr.evalTrace condDen x g).2 + 1)
        else (false, (GuardExpr.evalTrace condDen x g).2 + 1))
    else (false, (GuardExpr.evalTrace condDen x g).2)

/-- List-level reference form of the traced guard evaluation: scan the
conditions left to right, stop at the first false, and report how many
were evaluated. -/
def evalCondList {α : Type} (condDen : Expr → α → Bool) (x : α) :
    List Condition → Bool × Nat
  | [] => (true, 0)
  | cnd :: cs =>
    if condDen cnd.expr x then
      ((evalCondList condDen x cs).1, (evalCondList condDen x cs).2 + 1)
    else (false, 1)

/-- Sequential composition of two traced guard evaluations: when the first
part is already false the second contributes nothing (it is skipped). -/
def guardCombine (r s : Bool × Nat) : Bool × Nat :=
  if r.1 then (s.1, r.2 + s.2) else (false, r.2)

/-- Traced evaluation of the per-element closure body
guard.then(|| mapping): the produced optional output element, the number of
condition expressions evaluated, and whether the mapping expression was
evaluated. -/
def renderedBody {α β : Type} (condDen : Expr → α → Bool)
    (mapDen : Expr → α → β) (r : Rendered) (x : α) :
    Option β × Nat × Bool :=
  if (GuardExpr.evalTrace condDen x r.guard).1 then
    (some (mapDen r.mapping x), (GuardExpr.evalTrace condDen x r.guard).2, true)
  else (none, (GuardExpr.evalTrace condDen x r.guard).2, false)

/-- Iterator flat_map over a list: concatenate the per-element output
lists in order. -/
def flatMapList {α β : Type} (f : α → List β) : List α → List β
  | [] => []
  | x :: xs => f x ++ flatMapList f xs

/-- Evaluation of the whole rendered expression under denotations of the
opaque sub-expressions: flat_map of the closure body (an Option, hence
zero or one elements) over the elements of the sequence. -/
def renderedEval {α β : Type} (seqDen : Expr → List α)
    (condDen : Expr → α → Bool) (mapDen : Expr → α → β)
    (r : Rendered) : List β :=
  flatMapList (fun x => ((renderedBody condDen mapDen r x).1).toList)
    (seqDen r.seq)

/-! ### Helper lemmas about the parsing combinators -/

lemma splitExprToks_append (ts : List Tok) :
    (splitExprToks ts).1 ++ (splitExprToks ts).2 = ts := by
  induction ts with
  | nil => rfl
  | cons t rest ih =>
    by_cases h : t.isKw = true
    · simp [splitExprToks, h]
    · simp only [splitExprToks, h]
      simp [ih]

lemma parseExprSyn_ok (c : Cursor) (e : Expr) (c' : Cursor)
    (h : parseExprSyn c = (.ok e, c')) :
    e = (splitExprToks c.toks).1 ∧ c'.toks = (splitExprToks c.toks).2 := by
  unfold parseExprSyn at h
  by_cases he : (splitExprToks c.toks).1.isEmpty = true
  · simp [he] at h
  · rw [if_neg he] at h
    cases h
    exact ⟨rfl, rfl⟩

lemma parseExprSyn_ok_len (c : Cursor) (e : Expr) (c' : Cursor)
    (h : parseExprSyn c = (.ok e, c')) :
    c'.toks.length ≤ c.toks.length := by
  obtain ⟨-, h2⟩ := parseExprSyn_ok c e c' h
  have := splitExprToks_append c.toks
  have hlen : (splitExprToks c.toks).1.length + (splitExprToks c.toks).2.length
      = c.toks.length := by
    rw [← List.length_append, this]
  have hc' : c'.toks.length = (splitExprToks c.toks).2.length := by rw [h2]
  omega

lemma parseExprSyn_error (c : Cursor) (e : SynError) (c' : Cursor)
    (h : parseExprSyn c = (.error e, c')) :
    e = ⟨"expression", c.pos⟩ ∧ c' = c := by
  unfold parseExprSyn at h
  by_cases he : (splitExprToks c.toks).1.isEmpty = true
  · rw [if_pos he] at h
    cases h
    exact ⟨rfl, rfl⟩
  · rw [if_neg he] at h
    cases h

lemma parseKeyword_ok_len (test : Tok → Bool) (name : String) (c : Cursor)
    (u : Unit) (c' : Cursor) (h : parseKeyword test name c = (.ok u, c')) :
    c'.toks.length + 1 = c.toks.length := by
  unfold parseKeyword at h
  match hts : c.toks with
  | [] => rw [hts] at h; simp at h
  | t :: rest =>
    rw [hts] at h
    by_cases ht : test t = true
    · simp only [ht, if_true] at h
      cases h
      simp
    · simp [ht] at h

lemma parseKeyword_error_of_head (test : Tok → Bool) (name : String)
    (c : Cursor) (h : ∀ t, c.toks.head? = some t → test t = false) :
    parseKeyword test name c = (.error ⟨name, c.pos⟩, c) := by
  unfold parseKeyword
  match hts : c.toks with
  | [] => rfl
  | t :: rest =>
    have := h t (by rw [hts]; rfl)
    simp [this]

lemma conditionParse_progress (c : Cursor) (item : Condition) (c' : Cursor)
    (h : conditionParse c = (.ok item, c')) :
    c'.toks.length < c.toks.length := by
  unfold conditionParse at h
  split at h
  · rename_i u c1 hk
    split at h
    · rename_i e c2 hx
      simp only [Prod.mk.injEq, Except.ok.injEq] at h
      obtain ⟨-, rfl⟩ := h
      have h1 := parseKeyword_ok_len _ _ _ _ _ hk
      have h2 := parseExprSyn_ok_len _ _ _ hx
      omega
    · simp at h
  · simp at h

lemma parseZeroOrMoreAux_fuel_eq {γ : Type} (p : Cursor → ParseResult γ)
    (hp : ∀ cur item cur', p cur = (.ok item, cur') →
      cur'.toks.length < cur.toks.length) :
    ∀ f₁ f₂ cur, cur.toks.length < f₁ → cur.toks.length < f₂ →
      parseZeroOrMoreAux p f₁ cur = parseZeroOrMoreAux p f₂ cur := by
  intro f₁
  induction f₁ with
  | zero => intro f₂ cur h1 _; omega
  | succ n ih =>
    intro f₂ cur h1 h2
    match f₂ with
    | 0 => omega
    | m + 1 =>
      match hc : p cur with
      | (.error e, c') => simp [parseZeroOrMoreAux, hc]
      | (.ok item, c') =>
        have hlt := hp cur item c' hc
        have := ih m c' (by omega) (by omega)
        simp [parseZeroOrMoreAux, hc, this]

lemma parseZeroOrMoreAux_count {γ : Type} (p : Cursor → ParseResult γ)
    (hp : ∀ cur item cur', p cur = (.ok item, cur') →
      cur'.toks.length < cur.toks.length) :
    ∀ fuel cur, (parseZeroOrMoreAux p fuel cur).1.length ≤ cur.toks.length := by
  intro fuel
  induction fuel with
  | zero => intro cur; simp [parseZeroOrMoreAux]
  | succ n ih =>
    intro cur
    match hc : p cur with
    | (.error e, c') => simp [parseZeroOrMoreAux, hc]
    | (.ok item, c') =>
      have hlt := hp cur item c' hc
      have := ih c'
      simp only [parseZeroOrMoreAux, hc, List.length_cons]
      omega

/-! ### Helper lemmas about the generated guard semantics -/

lemma evalTrace_foldl {α : Type} (condDen : Expr → α → Bool) (x : α)
    (cs : List Condition) :
    ∀ g : GuardExpr,
      GuardExpr.evalTrace condDen x
        (cs.foldl (fun g cnd => GuardExpr.and g cnd.expr) g)
      = guardCombine (GuardExpr.evalTrace condDen x g)
          (evalCondList condDen x cs) := by
  induction cs with
  | nil =>
    intro g
    match hr : GuardExpr.evalTrace condDen x g with
    | (b, n) => cases b <;> simp [evalCondList, guardCombine]
  | cons cnd cs ih =>
    intro g
    rw [List.foldl_cons, ih]
    match hr : GuardExpr.evalTrace condDen x g with
    | (b, n) =>
      cases b <;>
        by_cases hce : condDen cnd.expr x = true <;>
          match hs : evalCondList condDen x cs with
          | (b', n') =>
            simp [GuardExpr.evalTrace, hr, hce, evalCondList, hs,
              guardCombine] <;> omega

lemma evalTrace_guardOf {α : Type} (condDen : Expr → α → Bool) (x : α)
    (cs : List Condition) :
    GuardExpr.evalTrace condDen x (guardOf cs) = evalCondList condDen x cs := by
  rw [guardOf, evalTrace_foldl]
  match hs : evalCondList condDen x cs with
  | (b, n) => simp [GuardExpr.evalTrace, guardCombine]

lemma evalCondList_fst {α : Type} (condDen : Expr → α → Bool) (x : α)
    (cs : List Condition) :
    (evalCondList condDen x cs).1 = cs.all (fun cnd => condDen cnd.expr x) := by
  induction cs with
  | nil => rfl
  | cons cnd cs ih =>
    by_cases hce : condDen cnd.expr x = true <;>
      simp [evalCondList, hce, ih]

lemma evalCondList_firstFalse {α : Type} (condDen : Expr → α → Bool) (x : α) :
    ∀ (cs : List Condition) (i : Nat) (hi : i < cs.length),
      condDen (cs.get ⟨i, hi⟩).expr x = false →
      (∀ j (hj : j < i), condDen (cs.get ⟨j, Nat.lt_trans hj hi⟩).expr x = true) →
      evalCondList condDen x cs = (false, i + 1) := by
  intro cs
  induction cs with
  | nil => intro i hi; simp at hi
  | cons cnd cs ih =>
    intro i hi hfalse hprev
    match i with
    | 0 =>
      have hf : condDen cnd.expr x = false := hfalse
      simp [evalCondList, hf]
    | k + 1 =>
      have hc : condDen cnd.expr x = true := hprev 0 (Nat.succ_pos k)
      have hrec := ih k (by simpa using Nat.lt_of_succ_lt_succ hi)
        hfalse (fun j hj => hprev (j + 1) (Nat.succ_lt_succ hj))
      simp [evalCondList, hc, hrec]

/-! ### Helper lemmas about flat_map over optional outputs -/

lemma flatMapList_ifOption {α β : Type} (p : α → Bool) (m : α → β)
    (f : α → Option β) (hf : ∀ x, f x = if p x then some (m x) else none) :
    ∀ xs : List α,
      flatMapList (fun x => (f x).toList) xs = (xs.filter p).map m := by
  intro xs
  induction xs with
  | nil => rfl
  | cons x xs ih =>
    by_cases hx : p x = true <;>
      simp [flatMapList, hf x, hx, List.filter_cons, ih]

lemma renderedBody_fst {α β : Type} (condDen : Expr → α → Bool)
    (mapDen : Expr → α → β) (cm : Comp) (x : α) :
    (renderedBody condDen mapDen (renderComp cm) x).1
      = if cm.for_if_clause.conditions.all (fun cnd => condDen cnd.expr x)
        then some (mapDen cm.mapping.expr x) else none := by
  unfold renderedBody
  rw [show (renderComp cm).guard = guardOf cm.for_if_clause.conditions from rfl,
    evalTrace_guardOf]
  rw [evalCondList_fst]
  by_cases hall : cm.for_if_clause.conditions.all
      (fun cnd => condDen cnd.expr x) = true <;>
    simp [hall, renderComp]

/-! ### Claim theorems -/

/-- C2: refutation on the code.  The claim says a failed Condition attempt
consumes no tokens, but the source's while-let loop has no
checkpoint/rollback and the stream does not rewind on error.  At a stream
holding a single trailing `if`, the attempt parses the `if` successfully
and then fails on the missing guard expression; the loop exits quietly
with zero conditions, yet the stream has advanced past the consumed `if`
(position 5 to 6, token list emptied): the failed attempt consumed a
token. -/
theorem c2_failed_attempt_consumes_tokens :
    conditionParse ⟨5, [Tok.kwIf]⟩ = (.error ⟨"expression", 6⟩, ⟨6, []⟩)
      ∧ parse_zero_or_more conditionParse ⟨5, [Tok.kwIf]⟩ = ([], ⟨6, []⟩) :=
  ⟨rfl, rfl⟩

/-- C3: the documented input x/y for x,y in pairs if y != 0 does NOT parse:
the single-pattern sublanguage parser consumes only the identifier x, and
the parse fails expecting the keyword `in` at the comma (position 5), so no
AST is produced and the rendered output [2,2] is never reached. -/
theorem c3_comma_pattern_syntax_error :
    (compParse ⟨0, [Tok.ident "x", Tok.op "/", Tok.ident "y", Tok.kwFor,
        Tok.ident "x", Tok.op ",", Tok.ident "y", Tok.kwIn,
        Tok.ident "pairs", Tok.kwIf, Tok.ident "y", Tok.op "!=",
        Tok.lit 0]⟩).1
      = .error ⟨"in", 5⟩ := rfl

/-- C5: each of the three malformed shapes produces the corresponding
SyntaxError with the expected construct and its position, and (the result
being the error constructor) no Comprehension AST: (1) input not starting
with `for` errors expecting `for` there; (2) after `for` and a pattern,
input not continuing with `in` errors expecting `in` at the position right
after the pattern; (3) after `in`, a failing sequence-expression parse
errors expecting an expression at that position. -/
theorem c5_missing_keyword_errors :
    (∀ cur : Cursor, (∀ t, cur.toks.head? = some t → t.isKwFor = false) →
        forIfClauseParse cur = (.error ⟨"for", cur.pos⟩, cur))
      ∧ (∀ (cur c1 : Cursor) (p : Pat) (c2 : Cursor),
          parseKeyword Tok.isKwFor "for" cur = (.ok (), c1) →
          parsePatSingle c1 = (.ok p, c2) →
          (∀ t, c2.toks.head? = some t → t.isKwIn = false) →
          forIfClauseParse cur = (.error ⟨"in", c2.pos⟩, c2))
      ∧ (∀ (cur c1 : Cursor) (p : Pat) (c2 c3 c4 : Cursor) (e : SynError),
          parseKeyword Tok.isKwFor "for" cur = (.ok (), c1) →
          parsePatSingle c1 = (.ok p, c2) →
          parseKeyword Tok.isKwIn "in" c2 = (.ok (), c3) →
          parseExprSyn c3 = (.error e, c4) →
          forIfClauseParse cur = (.error ⟨"expression", c3.pos⟩, c3)) := by
  refine ⟨?_, ?_, ?_⟩
  · intro cur h
    have hk := parseKeyword_error_of_head Tok.isKwFor "for" cur h
    simp [forIfClauseParse, hk]
  · intro cur c1 p c2 h1 h2 h3
    have hk := parseKeyword_error_of_head Tok.isKwIn "in" c2 h3
    simp [forIfClauseParse, h1, h2, hk]
  · intro cur c1 p c2 c3 c4 e h1 h2 h3 h4
    obtain ⟨he, hc⟩ := parseExprSyn_error c3 e c4 h4
    subst he
    subst hc
    simp [forIfClauseParse, h1, h2, h3, h4]

/-- Witness for C5: the three error cases at concrete inputs, the second
being the spec's scenario of a missing `in` right after the pattern. -/
theorem c5_missing_keyword_errors_app :
    forIfClauseParse ⟨0, [Tok.ident "x"]⟩
        = (.error ⟨"for", 0⟩, ⟨0, [Tok.ident "x"]⟩)
      ∧ forIfClauseParse ⟨0, [Tok.kwFor, Tok.ident "x",
          Tok.group Delim.bracket [Tok.lit 1]]⟩
          = (.error ⟨"in", 2⟩, ⟨2, [Tok.group Delim.bracket [Tok.lit 1]]⟩)
      ∧ forIfClauseParse ⟨0, [Tok.kwFor, Tok.ident "x", Tok.kwIn]⟩
          = (.error ⟨"expression", 3⟩, ⟨3, []⟩) :=
  ⟨c5_missing_keyword_errors.1 ⟨0, [Tok.ident "x"]⟩
      (fun t ht => by cases ht; rfl),
    c5_missing_keyword_errors.2.1 ⟨0, [Tok.kwFor, Tok.ident "x",
        Tok.group Delim.bracket [Tok.lit 1]]⟩
      ⟨1, [Tok.ident "x", Tok.group Delim.bracket [Tok.lit 1]]⟩
      (Pat.ident "x") ⟨2, [Tok.group Delim.bracket [Tok.lit 1]]⟩ rfl rfl
      (fun t ht => by cases ht; rfl),
    c5_missing_keyword_errors.2.2 ⟨0, [Tok.kwFor, Tok.ident "x", Tok.kwIn]⟩
      ⟨1, [Tok.ident "x", Tok.kwIn]⟩ (Pat.ident "x") ⟨2, [Tok.kwIn]⟩
      ⟨3, []⟩ ⟨3, []⟩ ⟨"expression", 3⟩ rfl rfl rfl rfl⟩

/-- C7: the code generator has no error path: whenever parsing succeeds and
consumes the whole stream, the entry point returns the rendering of the
parsed AST, with no failure branch between parse and output. -/
theorem c7_render_total_after_parse (input : List Tok) (cm : Comp)
    (c' : Cursor) (h : compParse ⟨0, input⟩ = (.ok cm, c'))
    (hend : c'.toks = []) :
    comp input = .ok (renderComp cm) := by
  simp [comp, h, hend]

/-- Witness for C7: the crate's own test input shape parses fully and the
entry point returns its rendering. -/
theorem c7_render_total_after_parse_app :
    comp [Tok.ident "x", Tok.kwFor, Tok.ident "x", Tok.kwIn, Tok.ident "xs"]
      = .ok (renderComp ⟨⟨[Tok.ident "x"]⟩,
          ⟨Pat.ident "x", [Tok.ident "xs"], []⟩⟩) :=
  c7_render_total_after_parse
    [Tok.ident "x", Tok.kwFor, Tok.ident "x", Tok.kwIn, Tok.ident "xs"]
    ⟨⟨[Tok.ident "x"]⟩, ⟨Pat.ident "x", [Tok.ident "xs"], []⟩⟩
    ⟨5, []⟩ rfl rfl

/-- C8: rendering is deterministic: invoking the token emitter twice for
the same AST appends two structurally identical token segments, whatever
buffer contents precede them (a two-run equality over the code
generator). -/
theorem c8_render_deterministic (cm : Comp) (buf : List Tok) :
    (compToTokens cm (compToTokens cm buf)).drop (compToTokens cm buf).length
      = (compToTokens cm buf).drop buf.length := by
  simp only [compToTokens, List.drop_left]

/-- C9: the condition loop terminates on every finite token stream: each
successful Condition parse consumes at least the `if` token (strict
decrease), any fuel beyond the token count computes the same result as the
loop itself (the iteration ends at the first failed attempt, after at most
token-count many successes), and the number of collected conditions is
bounded by the number of tokens. -/
theorem c9_zero_or_more_terminates :
    (∀ (cur : Cursor) (item : Condition) (cur' : Cursor),
        conditionParse cur = (.ok item, cur') →
          cur'.toks.length < cur.toks.length)
      ∧ (∀ (fuel : Nat) (cur : Cursor), cur.toks.length < fuel →
          parseZeroOrMoreAux conditionParse fuel cur
            = parse_zero_or_more conditionParse cur)
      ∧ (∀ cur : Cursor,
          (parse_zero_or_more conditionParse cur).1.length
            ≤ cur.toks.length) := by
  refine ⟨conditionParse_progress, ?_, ?_⟩
  · intro fuel cur h
    exact parseZeroOrMoreAux_fuel_eq conditionParse conditionParse_progress
      fuel (cur.toks.length + 1) cur h (Nat.lt_succ_self _)
  · intro cur
    exact parseZeroOrMoreAux_count conditionParse conditionParse_progress
      (cur.toks.length + 1) cur

/-- Witness for C9: a successful condition parse strictly shrinks the
stream, and extra fuel does not change the loop's result on a concrete
cursor. -/
theorem c9_zero_or_more_terminates_app :
    (Cursor.mk 2 []).toks.length
        < (Cursor.mk 0 [Tok.kwIf, Tok.ident "y"]).toks.length
      ∧ parseZeroOrMoreAux conditionParse 5 ⟨0, [Tok.ident "x"]⟩
          = parse_zero_or_more conditionParse ⟨0, [Tok.ident "x"]⟩ :=
  ⟨c9_zero_or_more_terminates.1 ⟨0, [Tok.kwIf, Tok.ident "y"]⟩
      ⟨[Tok.ident "y"]⟩ ⟨2, []⟩ rfl,
    c9_zero_or_more_terminates.2.1 5 ⟨0, [Tok.ident "x"]⟩ (by decide)⟩

/-- C10 counterexample: the input x for x in xs with a trailing lone `if`
(trailing tokens that do not begin a parseable condition) is ACCEPTED by
the entry point, not rejected: the failed condition attempt consumes the
`if` before failing on the missing guard expression, leaving the stream
empty, so the full-consumption check finds nothing left over and the
invocation succeeds with zero conditions. -/
theorem c10_trailing_if_accepted :
    comp [Tok.ident "x", Tok.kwFor, Tok.ident "x", Tok.kwIn, Tok.ident "xs",
        Tok.kwIf]
      = .ok (renderComp ⟨⟨[Tok.ident "x"]⟩,
          ⟨Pat.ident "x", [Tok.ident "xs"], []⟩⟩) := rfl

/-- C10 (amended): at the public entry point the whole input stream must be
consumed: when tokens remain after the generator clause and its conditions
— that is, tokens the failed final condition attempt left unconsumed — the
whole invocation fails with an error at the leftover position even though
the ForIfClause itself parsed successfully.  (Trailing tokens beginning
with `if` can be partly swallowed by the failed attempt and thereby escape
this check.) -/
theorem c10_leftover_tokens_error (input : List Tok) (cm : Comp)
    (c' : Cursor) (h : compParse ⟨0, input⟩ = (.ok cm, c'))
    (hrem : c'.toks ≠ []) :
    comp input = .error ⟨"unexpected token", c'.pos⟩ := by
  match hts : c'.toks with
  | [] => exact absurd hts hrem
  | t :: rest => simp [comp, h, hts]

/-- Witness for C10: a trailing `for` keyword cannot begin a condition and
is not consumed by the failed attempt (the single-keyword `if` parse is
atomic), so it survives to the leftover check and the invocation fails
there. -/
theorem c10_leftover_tokens_error_app :
    comp [Tok.ident "x", Tok.kwFor, Tok.ident "x", Tok.kwIn, Tok.ident "xs",
        Tok.kwFor]
      = .error ⟨"unexpected token", 5⟩ :=
  c10_leftover_tokens_error
    [Tok.ident "x", Tok.kwFor, Tok.ident "x", Tok.kwIn, Tok.ident "xs",
      Tok.kwFor]
    ⟨⟨[Tok.ident "x"]⟩, ⟨Pat.ident "x", [Tok.ident "xs"], []⟩⟩
    ⟨5, [Tok.kwFor]⟩ rfl (by simp)

/-- C1: for every token stream that parses into a Comprehension, the
rendered flat_map-over-Option expression yields at most one output element
per input element (the closure body is an Option), and its evaluation under
any denotation of the opaque sub-expressions is exactly the elements of the
sequence on which all conditions hold, each passed through the mapping
expression; hence the output is never longer than the source sequence. -/
theorem c1_render_filter_map (α β : Type) (toks : List Tok) (cm : Comp)
    (cur : Cursor) (seqDen : Expr → List α) (condDen : Expr → α → Bool)
    (mapDen : Expr → α → β)
    (_h : compParse ⟨0, toks⟩ = (.ok cm, cur)) :
    (∀ x : α,
        ((renderedBody condDen mapDen (renderComp cm) x).1).toList.length ≤ 1)
      ∧ renderedEval seqDen condDen mapDen (renderComp cm)
          = ((seqDen cm.for_if_clause.sequence).filter
              (fun x => cm.for_if_clause.conditions.all
                (fun cnd => condDen cnd.expr x))).map
            (mapDen cm.mapping.expr)
      ∧ (renderedEval seqDen condDen mapDen (renderComp cm)).length
          ≤ (seqDen cm.for_if_clause.sequence).length := by
  have hbody := renderedBody_fst condDen mapDen cm
  have heq : renderedEval seqDen condDen mapDen (renderComp cm)
      = ((seqDen cm.for_if_clause.sequence).filter
          (fun x => cm.for_if_clause.conditions.all
            (fun cnd => condDen cnd.expr x))).map (mapDen cm.mapping.expr) := by
    unfold renderedEval
    exact flatMapList_ifOption _ _ _ hbody _
  refine ⟨?_, heq, ?_⟩
  · intro x
    rw [hbody x]
    by_cases hx : cm.for_if_clause.conditions.all
        (fun cnd => condDen cnd.expr x) = true <;> simp [hx]
  · rw [heq]
    simp only [List.length_map]
    exact List.length_filter_le _ _

/-- Witness for C1: the crate's test input, with the sequence denoting
[1, 2, 3] and the mapping doubling each element, evaluates to [2, 4, 6]
with each input element producing at most one output. -/
theorem c1_render_filter_map_app :
    (∀ x : Nat,
        ((renderedBody (fun _ _ => true) (fun _ n => 2 * n)
            (renderComp ⟨⟨[Tok.ident "x"]⟩,
              ⟨Pat.ident "x", [Tok.ident "xs"], []⟩⟩) x).1).toList.length ≤ 1)
      ∧ renderedEval (fun _ => [1, 2, 3]) (fun _ _ => true) (fun _ n => 2 * n)
          (renderComp ⟨⟨[Tok.ident "x"]⟩,
            ⟨Pat.ident "x", [Tok.ident "xs"], []⟩⟩)
        = [2, 4, 6]
      ∧ (renderedEval (fun _ => [1, 2, 3]) (fun _ _ => true) (fun _ n => 2 * n)
          (renderComp ⟨⟨[Tok.ident "x"]⟩,
            ⟨Pat.ident "x", [Tok.ident "xs"], []⟩⟩)).length ≤ 3 := by
  have h := c1_render_filter_map Nat Nat
    [Tok.ident "x", Tok.kwFor, Tok.ident "x", Tok.kwIn, Tok.ident "xs"]
    ⟨⟨[Tok.ident "x"]⟩, ⟨Pat.ident "x", [Tok.ident "xs"], []⟩⟩ ⟨5, []⟩
    (fun _ => [1, 2, 3]) (fun _ _ => true) (fun _ n => 2 * n) rfl
  exact ⟨h.1, h.2.1.trans rfl, h.2.2⟩

/-- C4: the generated guard evaluates the conditions in source order with
Rust short-circuit semantics: when the condition at index i is the first
false one (all earlier ones true), the per-element body evaluates exactly
the first i+1 condition expressions, evaluates no later condition and not
the mapping expression, and produces no output element. -/
theorem c4_short_circuit_first_false (α β : Type) (cm : Comp)
    (condDen : Expr → α → Bool) (mapDen : Expr → α → β) (x : α) (i : Nat)
    (hi : i < cm.for_if_clause.conditions.length)
    (hfalse : condDen ((cm.for_if_clause.conditions).get ⟨i, hi⟩).expr x
      = false)
    (hprev : ∀ j (hj : j < i),
      condDen ((cm.for_if_clause.conditions).get
          ⟨j, Nat.lt_trans hj hi⟩).expr x = true) :
    renderedBody condDen mapDen (renderComp cm) x = (none, i + 1, false) := by
  have hlist := evalCondList_firstFalse condDen x
    cm.for_if_clause.conditions i hi hfalse hprev
  unfold renderedBody
  rw [show (renderComp cm).guard = guardOf cm.for_if_clause.conditions
      from rfl, evalTrace_guardOf, hlist]
  simp

/-- Witness for C4: with two conditions whose first denotes false on the
element, only that one condition is evaluated, the mapping is not
evaluated, and no output element is produced. -/
theorem c4_short_circuit_first_false_app :
    renderedBody
        (fun e _ => match e with | [Tok.lit 0] => false | _ => true)
        (fun _ (n : Nat) => n)
        (renderComp ⟨⟨[Tok.ident "x"]⟩, ⟨Pat.ident "x", [Tok.ident "xs"],
          [⟨[Tok.lit 0]⟩, ⟨[Tok.lit 1]⟩]⟩⟩) 1
      = (none, 1, false) :=
  c4_short_circuit_first_false Nat Nat
    ⟨⟨[Tok.ident "x"]⟩, ⟨Pat.ident "x", [Tok.ident "xs"],
      [⟨[Tok.lit 0]⟩, ⟨[Tok.lit 1]⟩]⟩⟩
    (fun e _ => match e with | [Tok.lit 0] => false | _ => true)
    (fun _ n => n) 1 0 (by decide) rfl
    (fun j hj => absurd hj (Nat.not_lt_zero j))

/-- C6: with zero conditions the generated guard is the constant true base
case, so evaluation is a pure map: every element is admitted and the output
has the same length as the input sequence. -/
theorem c6_no_conditions_pure_map (cm : Comp)
    (hzero : cm.for_if_clause.conditions = []) :
    (renderComp cm).guard = GuardExpr.base
      ∧ ∀ (α β : Type) (seqDen : Expr → List α) (condDen : Expr → α → Bool)
          (mapDen : Expr → α → β),
          renderedEval seqDen condDen mapDen (renderComp cm)
              = (seqDen cm.for_if_clause.sequence).map (mapDen cm.mapping.expr)
            ∧ (renderedEval seqDen condDen mapDen (renderComp cm)).length
              = (seqDen cm.for_if_clause.sequence).length := by
  have hguard : (renderComp cm).guard = GuardExpr.base := by
    simp [renderComp, hzero, guardOf]
  refine ⟨hguard, ?_⟩
  intro α β seqDen condDen mapDen
  have hbody : ∀ x, (renderedBody condDen mapDen (renderComp cm) x).1
      = if (fun _ : α => true) x then some (mapDen cm.mapping.expr x)
        else none := by
    intro x
    rw [renderedBody_fst, hzero]
    simp
  have heq : renderedEval seqDen condDen mapDen (renderComp cm)
      = ((seqDen cm.for_if_clause.sequence).filter (fun _ => true)).map
          (mapDen cm.mapping.expr) := by
    unfold renderedEval
    exact flatMapList_ifOption _ _ _ hbody _
  constructor
  · rw [heq]; simp
  · rw [heq]; simp

/-- Witness for C6: a parsed comprehension with no conditions maps
[1, 2, 3] to [2, 4, 6] even under a condition denotation that is uniformly
false, since no condition occurs. -/
theorem c6_no_conditions_pure_map_app :
    renderedEval (fun _ => [1, 2, 3]) (fun _ _ => false) (fun _ n => n * 2)
        (renderComp ⟨⟨[Tok.ident "x"]⟩,
          ⟨Pat.ident "x", [Tok.ident "xs"], []⟩⟩)
      = [2, 4, 6] := by
  have h := (c6_no_conditions_pure_map
      ⟨⟨[Tok.ident "x"]⟩, ⟨Pat.ident "x", [Tok.ident "xs"], []⟩⟩ rfl).2
    Nat Nat (fun _ => [1, 2, 3]) (fun _ _ => false) (fun _ n => n * 2)
  exact h.1.trans rfl
